import Mathlib

/-!
# prometheus-scraper: a verification development

A shallow embedding of the scraper's Go sources:

* `model.ServerAddress`, `model.ServiceInstance`, `config.ScrapeEndpoint`;
* `mongodb.removeAddresses` and `mongodb.LoadServiceInstances`, with Go's slice
  semantics (a shared backing array and a length) made explicit;
* `elasticsearch.WriteMetric`;
* `cli.Run`: its sequential part as a function of the outcomes of its steps, and
  its concurrent part (poll workers, the WaitGroup, the `closed` channel) as an
  executable step function on an explicit state.
-/

namespace Scraper

/-! ## model -/

/-- The struct `model.ServerAddress`; the field `Type` is written `Typ` (`Type` is reserved). -/
structure ServerAddress where
  Name : String
  IP : String
  Port : Int
  Backup : Bool
  Typ : String
deriving DecidableEq, Repr

/-- The struct `model.ServiceInstance`; the two map-valued fields (`Parameters`, `Context`) are
never read by the program and are left out. -/
structure ServiceInstance where
  ID : String
  ServiceDefinitionID : String
  PlanID : String
  OrganizationGUID : String
  SpaceGUID : String
  DashboardURL : String
  InternalID : String
  Hosts : List ServerAddress
deriving DecidableEq, Repr

/-! ## mongodb.removeAddresses -/

/-- A Go slice of server addresses: the backing array from the slice's first element on,
and the slice's length.  `removeAddresses` never reads or writes beyond the initial
length, so the array is cut there (capacity = initial length). -/
structure HostSlice where
  arr : List ServerAddress
  len : Nat
deriving DecidableEq, Repr

/-- The elements of the slice: the first `len` cells of the backing array. -/
def HostSlice.elems (s : HostSlice) : List ServerAddress :=
  s.arr.take s.len

/-- The statement `hosts = append(hosts[:i], hosts[i+1:]...)`.
`hosts[i+1:]` faults when `i + 1 > len(hosts)`; `hosts[:i]` only needs `i ≤ cap(hosts)`.
The result has length `len - 1 ≤ cap`, so `append` works in place: the cells
`i+1 .. len-1` move one to the left and the cells from `len-1` on keep their value. -/
def removeAt (s : HostSlice) (i : Nat) : Option HostSlice :=
  if i + 1 ≤ s.len ∧ i ≤ s.arr.length then
    some { arr := s.arr.take i ++ ((s.arr.drop (i + 1)).take (s.len - (i + 1)) ++
                    s.arr.drop (s.len - 1)),
           len := s.len - 1 }
  else
    none

/-- One iteration of `for i, host := range hosts`: `host` is read from cell `i` of the
backing array (the range expression is evaluated once, the array is shared). -/
def removeStep (scrapeType : String) (i : Nat) (s : HostSlice) : Option HostSlice :=
  match s.arr.get? i with
  | none => none
  | some host =>
    if host.Typ ≠ scrapeType then removeAt s i else some s

/-- The iterations `i, i+1, .., i+n-1` of the range loop. -/
def removeLoop (scrapeType : String) : Nat → Nat → HostSlice → Option HostSlice
  | 0, _, s => some s
  | n + 1, i, s =>
    match removeStep scrapeType i s with
    | none => none
    | some s1 => removeLoop scrapeType n (i + 1) s1

/-- The function `mongodb.removeAddresses`; `none` is the run-time panic "slice bounds out of range".
The loop runs over the indices of the slice as it was when the loop started. -/
def removeAddresses (hosts : List ServerAddress) (scrapeType : String) :
    Option (List ServerAddress) :=
  (removeLoop scrapeType hosts.length 0 { arr := hosts, len := hosts.length }).map
    HostSlice.elems

/-- A host of the given type, for examples. -/
def mkHost (ip type : String) : ServerAddress :=
  { Name := "", IP := ip, Port := 9100, Backup := false, Typ := type }

/-- A service instance with the given id and hosts, for examples. -/
def mkInstance (id : String) (hosts : List ServerAddress) : ServiceInstance :=
  { ID := id, ServiceDefinitionID := "", PlanID := "", OrganizationGUID := "",
    SpaceGUID := "", DashboardURL := "", InternalID := "", Hosts := hosts }

/-! ## config -/

/-- The struct `config.ScrapeEndpoint`; the field `Type` is written `Typ`. -/
structure ScrapeEndpoint where
  Typ : String
  Port : Int
  Interval : Int
  IncludeNode : Bool
deriving DecidableEq, Repr

/-- The struct `config.Config`.  The `Elasticsearch` and `MongoDB` sections only feed the two client
constructors, whose outcomes are inputs of `Run` below. -/
structure Config where
  ScrapeEndpoints : List ScrapeEndpoint
deriving DecidableEq, Repr

/-! ## mongodb.LoadServiceInstances -/

/-- The two ways the process is ended from inside a call. -/
inductive Abort where
  /-- By `log.Fatal` / `log.Fatalln`: the message is logged and `os.Exit(1)` is called. -/
  | fatal
  /-- An unrecovered `panic`: the Go runtime ends the process with status 2. -/
  | goPanic
deriving DecidableEq, Repr

/-- The body of `for cur.Next(ctx)`: each document is decoded (a decoding error is
`log.Fatal`), its hosts go through `removeAddresses` (a slice-bounds fault is a panic),
and it is appended to `serviceInstances`. -/
def loadCursor (scrapeType : String) :
    List (Except String ServiceInstance) → List ServiceInstance →
      Except Abort (List ServiceInstance)
  | [], serviceInstances => .ok serviceInstances
  | .error _ :: _, _ => .error .fatal
  | .ok serviceInstance :: rest, serviceInstances =>
    match removeAddresses serviceInstance.Hosts scrapeType with
    | none => .error .goPanic
    | some hosts =>
      loadCursor scrapeType rest (serviceInstances ++ [{ serviceInstance with Hosts := hosts }])

/-- The function `mongodb.LoadServiceInstances`.  `find scrapeType` is the outcome of the query
`Find(ctx, bson.D{{"hosts.type", scrapeType}})`: an error, or the documents the cursor
yields, each with the outcome of decoding it. -/
def LoadServiceInstances (find : String → Except String (List (Except String ServiceInstance)))
    (scrapeType : String) : Except Abort (List ServiceInstance) :=
  match find scrapeType with
  | .error _ => .error .fatal
  | .ok cur => loadCursor scrapeType cur []

/-! ## elasticsearch.WriteMetric -/

/-- The struct `elasticsearch.Tweet` ("Tweet is sample Object"); `Created` is a `time.Time`, kept as
nanoseconds from the zero time. -/
structure Tweet where
  User : String
  Message : String
  Retweets : Int
  Image : String
  Created : Int
  Tags : List String
  Location : String
deriving DecidableEq, Repr

/-- A value handed to `BodyJson(interface{})`: in this program a `Tweet` struct or a
string of JSON text. -/
inductive Body where
  | tweet (t : Tweet)
  | json (text : String)
deriving DecidableEq, Repr

/-- The index request built by `Index().Index(..).Type(..).BodyJson(..)`. -/
structure IndexRequest where
  Index : String
  Typ : String
  BodyJson : Body
deriving DecidableEq, Repr

/-- The fields of the index response that `WriteMetric` prints. -/
structure IndexResponse where
  Id : String
  Index : String
  Typ : String
deriving DecidableEq, Repr

/-- How a call of `WriteMetric` ends. -/
inductive WriteOutcome where
  /-- The call returned, having printed the given line. -/
  | completed (printed : String)
  /-- The call executed `panic(err)`. -/
  | panicked (err : String)
deriving DecidableEq, Repr

/-- The local `tweet1` of `WriteMetric`. -/
def tweet1 : Tweet :=
  { User := "olivere", Message := "Take Five", Retweets := 0, Image := "", Created := 0,
    Tags := [], Location := "" }

/-- The request `WriteMetric` sends: it has no parameter carrying metric data. -/
def WriteMetricRequest : IndexRequest :=
  { Index := "test", Typ := "test", BodyJson := .tweet tweet1 }

/-- The function `elasticsearch.WriteMetric`; `doIndex` is the sink's answer to `Do(ctx)`. -/
def WriteMetric (doIndex : IndexRequest → Except String IndexResponse) : WriteOutcome :=
  match doIndex WriteMetricRequest with
  | .error err => .panicked err
  | .ok put1 =>
    .completed ("Indexed tweet " ++ put1.Id ++ " to index " ++ put1.Index ++ ", type " ++
      put1.Typ ++ "\n")

/-! ## cli: one scrape cycle -/

/-- Modelled from the spec: `Sample` of the package `prometheus` (not among the sources):
labels and a numeric value. -/
structure Sample where
  labels : List (String × String)
  value : Rat
deriving DecidableEq, Repr

/-- Modelled from the spec: `prometheus.Family` (not among the sources): a family name, a
kind and the samples in the order received. -/
structure Family where
  name : String
  kind : String
  samples : List Sample
deriving DecidableEq, Repr

/-- What one pass through the ticker branch has done when it reaches the end. -/
structure CycleEffects where
  /-- The text written to `os.Stdout`. -/
  stdout : String
  /-- The arguments `(ip, data)` of the forwarding goroutine. -/
  forwarderArgs : String × String
  /-- The request that goroutine sends to the sink. -/
  sinkRequest : IndexRequest
  /-- How the goroutine's call of `WriteMetric` ends. -/
  write : WriteOutcome
deriving DecidableEq, Repr

/-- How the ticker branch ends. -/
inductive CycleOutcome where
  /-- The call `log.Fatalln` was made: the process exits with status 1. -/
  | fatal
  /-- The branch reached its end and the loop goes back to `select`. -/
  | done (e : CycleEffects)
deriving DecidableEq, Repr

/-- The goroutine `go func(ip string, data string, logger *log.Logger)`: its body is
`elasticsearch.WriteMetric(ctx, elasticsearchClient)`; `ip` and `data` are not used. -/
def forwarder (doIndex : IndexRequest → Except String IndexResponse) (_ip _data : String) :
    IndexRequest × WriteOutcome :=
  (WriteMetricRequest, WriteMetric doIndex)

/-- The ticker branch of the worker loop after the fetch: `result` holds the fetched
families; `marshal` is `json.Marshal`, `stdoutWrite` is `os.Stdout.Write`. -/
def pollCycle (marshal : List Family → Except String String)
    (stdoutWrite : String → Except String Unit)
    (doIndex : IndexRequest → Except String IndexResponse)
    (ip : String) (result : List Family) : CycleOutcome :=
  match marshal result with
  | .error _ => .fatal
  | .ok jsonText =>
    match stdoutWrite jsonText with
    | .error _ => .fatal
    | .ok _ =>
      let r := forwarder doIndex ip jsonText
      .done { stdout := jsonText, forwarderArgs := (ip, jsonText), sinkRequest := r.1,
              write := r.2 }

/-- The result of the spec's scenario A: one gauge family `cpu_usage` with one sample,
labels `host = a`, value `0.42`. -/
def cpuUsage : List Family :=
  [{ name := "cpu_usage", kind := "gauge", samples := [{ labels := [("host", "a")], value := 0.42 }] }]

/-! ## cli.Run: spawning the workers -/

/-- Exit code `ExitCodeOK`. -/
def ExitCodeOK : Int := 0

/-- Exit code `ExitCodeError = 1 + iota`, the second constant of its block (`iota = 1`). -/
def ExitCodeError : Int := 1 + 1

/-- The constant `time.Second`, in nanoseconds. -/
def Second : Int := 1000000000

/-- The arguments of the worker goroutine `go func(name, ip, port, logger)`. -/
structure Worker where
  name : String
  ip : String
  port : Int
deriving DecidableEq, Repr

/-- The duration given to `time.NewTicker` in the worker: `time.Second * 5`. -/
def tickerDuration (_w : Worker) : Int := Second * 5

/-- The WaitGroup additions made and the goroutines started so far. -/
structure Spawned where
  adds : Nat
  workers : List Worker
deriving DecidableEq, Repr

/-- The worker started for a host of an endpoint. -/
def workerFor (scrapeEndpoint : ScrapeEndpoint) (host : ServerAddress) : Worker :=
  { name := scrapeEndpoint.Typ ++ "-" ++ host.IP, ip := host.IP, port := scrapeEndpoint.Port }

/-- The loop `for _, host := range serviceInstance.Hosts`: `wg.Add(1)` and `go func`. -/
def spawnHosts (scrapeEndpoint : ScrapeEndpoint) : List ServerAddress → Spawned → Spawned
  | [], st => st
  | host :: rest, st =>
    spawnHosts scrapeEndpoint rest
      { adds := st.adds + 1, workers := st.workers ++ [workerFor scrapeEndpoint host] }

/-- The loop `for _, serviceInstance := range serviceInstances`. -/
def spawnInstances (scrapeEndpoint : ScrapeEndpoint) : List ServiceInstance → Spawned → Spawned
  | [], st => st
  | serviceInstance :: rest, st =>
    spawnInstances scrapeEndpoint rest (spawnHosts scrapeEndpoint serviceInstance.Hosts st)

/-- The loop `for _, scrapeEndpoint := range config.ScrapeEndpoints`. -/
def spawnEndpoints (find : String → Except String (List (Except String ServiceInstance))) :
    List ScrapeEndpoint → Spawned → Except Abort Spawned
  | [], st => .ok st
  | scrapeEndpoint :: rest, st =>
    match LoadServiceInstances find scrapeEndpoint.Typ with
    | .error a => .error a
    | .ok serviceInstances =>
      spawnEndpoints find rest (spawnInstances scrapeEndpoint serviceInstances st)

/-! ## cli.Run: the sequential part -/

/-- The flag values `Run` branches on. -/
structure Flags where
  cfgPath : String
  version : Bool
  genGodoc : Bool
deriving DecidableEq, Repr

/-- The outcomes of the steps of `Run`. -/
structure RunEnv where
  /-- The call `flags.Parse(args[1:])` and the flag values it leaves. -/
  parse : List String → Except String Flags
  /-- The call `godoc()`. -/
  godoc : Except String Unit
  /-- The call `config.LoadConfig(cfgPath)`. -/
  loadConfig : String → Except String Config
  /-- Building the sink client in `NewElasticsearchClient`, which panics on an error. -/
  newElasticsearchClient : Config → Except String Unit
  /-- Building and connecting the client in `NewMongoDBClient`, which panics on an error. -/
  newMongoDBClient : Config → Except String Unit
  /-- The discovery query, as in `LoadServiceInstances`. -/
  find : String → Except String (List (Except String ServiceInstance))
  /-- Whether an `os.Interrupt` is ever delivered on `c`. -/
  interrupt : Bool

/-- How the process ends. -/
inductive ProcessEnd where
  /-- The function `Run` returned `code` and `main` called `os.Exit(code)`. -/
  | returned (code : Int)
  /-- The process was ended by `log.Fatal` or by a panic. -/
  | aborted (a : Abort)
  /-- The function `Run` stays in `select` waiting for a signal that never comes. -/
  | blocked
deriving DecidableEq, Repr

/-- The exit status of the process, if it ends. -/
def ProcessEnd.exitCode : ProcessEnd → Option Int
  | .returned code => some code
  | .aborted .fatal => some 1
  | .aborted .goPanic => some 2
  | .blocked => none

/-- The method `CLI.Run` followed by `os.Exit` in `main`, as a function of the outcomes of
its own steps.  `args[1:]` faults on an empty argument list.  A nil `ScrapeEndpoints` is
only logged.  After the signal, `wg.Wait()` returns, because every started worker calls
`wg.Done()` before it enters its loop (`wait_can_return` below); `isError` is never set.
What the workers do meanwhile, including ending the process from a cycle, is the subject
of `sysStep`. -/
def Run (env : RunEnv) (args : List String) : ProcessEnd :=
  match args with
  | [] => .aborted .goPanic
  | _ :: rest =>
    match env.parse rest with
    | .error _ => .returned ExitCodeError
    | .ok flags =>
      if flags.genGodoc then
        match env.godoc with
        | .error _ => .returned ExitCodeError
        | .ok _ => .returned ExitCodeOK
      else if flags.version then .returned ExitCodeOK
      else
        match env.loadConfig flags.cfgPath with
        | .error _ => .returned ExitCodeError
        | .ok config =>
          match env.newElasticsearchClient config with
          | .error _ => .aborted .goPanic
          | .ok _ =>
            match env.newMongoDBClient config with
            | .error _ => .aborted .goPanic
            | .ok _ =>
              match spawnEndpoints env.find config.ScrapeEndpoints { adds := 0, workers := [] } with
              | .error a => .aborted a
              | .ok _ =>
                if env.interrupt then
                  let isError := false
                  if isError then .returned ExitCodeError else .returned ExitCodeOK
                else .blocked

/-- An environment for examples: flags parse to the given values, every call succeeds,
one `mongodb` endpoint is configured and the directory holds one host for it. -/
def okEnv (flags : Flags) : RunEnv :=
  { parse := fun _ => .ok flags
    godoc := .ok ()
    loadConfig := fun _ =>
      .ok { ScrapeEndpoints := [{ Typ := "mongodb", Port := 9216, Interval := 30,
                                  IncludeNode := false }] }
    newElasticsearchClient := fun _ => .ok ()
    newMongoDBClient := fun _ => .ok ()
    find := fun scrapeType => .ok [.ok (mkInstance "si-1" [mkHost "10.0.0.1" scrapeType])]
    interrupt := true }

/-! ## cli.Run: workers, WaitGroup and the `closed` channel as a transition system -/

/-- Where a worker goroutine stands. -/
inductive WorkerPc where
  /-- Started, before `wg.Done()`. -/
  | starting
  /-- Idle: at the `select` of its loop. -/
  | idle
  /-- Fetching: inside the `case <-ticker.C` branch. -/
  | fetching
  /-- Cancelled: it took `case <-closed` and returned. -/
  | cancelled
  /-- It called `log.Fatalln`, which ended the process. -/
  | killed
deriving DecidableEq, Repr

/-- A worker: its position and whether a tick waits in the channel `ticker.C`. -/
structure WorkerState where
  pc : WorkerPc
  tickReady : Bool
deriving DecidableEq, Repr

/-- The steps a worker takes itself. -/
inductive WorkerEvent where
  /-- Log, create the ticker, `wg.Done()`, enter the loop. -/
  | done
  /-- The `select` takes `case <-ticker.C`. -/
  | tick
  /-- The ticker branch ends: normally, or in `log.Fatalln`. -/
  | cycleEnd (fatal : Bool)
  /-- The `select` takes `case <-closed`. -/
  | cancel
deriving DecidableEq, Repr

/-- One step of a worker.  At `select` every ready case may be taken: Go chooses among
the ready cases at random, there is no priority between `closed` and `ticker.C`. -/
def workerStep (closed : Bool) : WorkerEvent → WorkerState → Option WorkerState
  | .done, ⟨.starting, t⟩ => some ⟨.idle, t⟩
  | .tick, ⟨.idle, true⟩ => some ⟨.fetching, false⟩
  | .cancel, ⟨.idle, t⟩ => if closed then some ⟨.cancelled, t⟩ else none
  | .cycleEnd fatal, ⟨.fetching, t⟩ => some ⟨if fatal then .killed else .idle, t⟩
  | _, _ => none

/-- A run of worker steps under a fixed value of the signal. -/
def workerRun (closed : Bool) : List WorkerEvent → WorkerState → Option WorkerState
  | [], w => some w
  | ev :: evs, w =>
    match workerStep closed ev w with
    | none => none
    | some w1 => workerRun closed evs w1

/-- Where `Run` stands. -/
inductive RunPc where
  /-- In the spawning loops. -/
  | spawning
  /-- In `select`, waiting for the signal on `c`. -/
  | awaitSignal
  /-- In `wg.Wait()`. -/
  | waiting
  /-- Past `wg.Wait()`: `Run` returns. -/
  | returned
deriving DecidableEq, Repr

/-- The state of `Run` and its workers. -/
structure SysState where
  run : RunPc
  /-- Hosts for which a worker is still to be started. -/
  pending : Nat
  /-- The counter of the WaitGroup. -/
  wg : Nat
  /-- Whether the channel `closed` has been closed. -/
  closed : Bool
  workers : List WorkerState
  /-- Forwarding goroutines whose call of `WriteMetric` has not ended yet. -/
  inflight : Nat
  /-- The exit status once the process has ended. -/
  exit : Option Int
deriving DecidableEq, Repr

/-- The steps of the system. -/
inductive Event where
  /-- The statements `wg.Add(1)` and `go func(...)`. -/
  | spawn
  /-- The spawning loops end; `Run` reaches `select`. -/
  | endSpawn
  /-- A signal arrives on `c`; `Run` calls `wg.Wait()`. -/
  | interrupt
  /-- The call `wg.Wait()` returns, `Run` returns `ExitCodeOK` and `main` exits. -/
  | waitReturn
  /-- The ticker of worker `i` fires. -/
  | ticker (i : Nat)
  /-- Worker `i` takes a step. -/
  | worker (i : Nat) (ev : WorkerEvent)
  /-- A forwarding goroutine's call of `WriteMetric` ends: it returns, or (`failed`) it
  executes `panic(err)`, which nothing recovers. -/
  | written (failed : Bool)
deriving DecidableEq, Repr

/-- The start: `n` hosts were discovered, nothing is started, `closed` is open. -/
def SysState.init (n : Nat) : SysState :=
  { run := .spawning, pending := n, wg := 0, closed := false, workers := [], inflight := 0,
    exit := none }

/-- One step of the system; `none` when the step is not enabled.  No step closes the
channel `closed`: the program has no `close(closed)`. -/
def sysStep (s : SysState) (ev : Event) : Option SysState :=
  if s.exit.isSome then none
  else
    match ev with
    | .spawn =>
      if s.run = .spawning ∧ 0 < s.pending then
        some { s with pending := s.pending - 1, wg := s.wg + 1,
                      workers := s.workers ++ [⟨.starting, false⟩] }
      else none
    | .endSpawn =>
      if s.run = .spawning ∧ s.pending = 0 then some { s with run := .awaitSignal } else none
    | .interrupt =>
      if s.run = .awaitSignal then some { s with run := .waiting } else none
    | .waitReturn =>
      if s.run = .waiting ∧ s.wg = 0 then
        some { s with run := .returned, exit := some ExitCodeOK }
      else none
    | .ticker i =>
      match s.workers.get? i with
      | none => none
      | some w =>
        if w.pc = .starting then none
        else some { s with workers := s.workers.set i { w with tickReady := true } }
    | .worker i wev =>
      match s.workers.get? i with
      | none => none
      | some w =>
        match workerStep s.closed wev w with
        | none => none
        | some w1 =>
          some { s with workers := s.workers.set i w1,
                        wg := if wev = .done then s.wg - 1 else s.wg,
                        inflight := if wev = .cycleEnd false then s.inflight + 1 else s.inflight,
                        exit := if w1.pc = .killed then some 1 else none }
    | .written failed =>
      if 0 < s.inflight then
        some { s with inflight := s.inflight - 1, exit := if failed then some 2 else none }
      else none

/-- The number of workers that have not yet called `wg.Done()`. -/
def startingCount (s : SysState) : Nat :=
  s.workers.countP (fun w => decide (w.pc = .starting))

/-- The facts that hold in every state the system can reach: `closed` is still open, no
worker has left its loop through `case <-closed`, and the WaitGroup counter is the number
of workers that have not yet called `wg.Done()`. -/
def SysInv (s : SysState) : Prop :=
  s.closed = false ∧ (∀ w ∈ s.workers, w.pc ≠ .cancelled) ∧ s.wg = startingCount s

/-- A run of the system along a list of steps. -/
def sysRun : List Event → SysState → Option SysState
  | [], s => some s
  | ev :: evs, s =>
    match sysStep s ev with
    | none => none
    | some s1 => sysRun evs s1

/-! ## lemmas on removeAddresses -/

theorem removeAt_spec {s s1 : HostSlice} {i : Nat} (h : removeAt s i = some s1)
    (hinv : s.len ≤ s.arr.length) :
    i < s.len ∧ s1.len = s.len - 1 ∧ s1.arr.length = s.arr.length ∧
      s1.elems = s.elems.eraseIdx i := by
  unfold removeAt at h
  split at h
  · rename_i hc
    obtain ⟨h1, h2⟩ := hc
    simp only [Option.some.injEq] at h
    subst h
    refine ⟨by omega, rfl, ?_, ?_⟩
    · simp only [List.length_append, List.length_take, List.length_drop]
      omega
    · simp only [HostSlice.elems]
      rw [List.eraseIdx_eq_take_drop_succ, List.take_take, List.drop_take,
        ← List.append_assoc, List.take_append_eq_append_take]
      have e1 : (List.take i s.arr ++ List.take (s.len - (i + 1)) (List.drop (i + 1) s.arr)).length
          = s.len - 1 := by
        simp only [List.length_append, List.length_take, List.length_drop]
        omega
      rw [e1, Nat.sub_self, List.take_zero, List.append_nil, List.take_of_length_le (by omega)]
      congr 2
      omega
  · simp at h

theorem filter_eraseIdx_of_not (p : ServerAddress → Bool) (l : List ServerAddress) (i : Nat)
    (x : ServerAddress) (hx : l.get? i = some x) (hp : p x = false) :
    (l.eraseIdx i).filter p = l.filter p := by
  induction l generalizing i with
  | nil => simp
  | cons a t ih =>
    cases i with
    | zero =>
      simp only [List.get?_cons_zero, Option.some.injEq] at hx
      subst hx
      simp [List.filter_cons, hp]
    | succ j =>
      simp only [List.get?_cons_succ] at hx
      simp only [List.eraseIdx_cons_succ, List.filter_cons, ih j hx]

theorem get?_elems_of_lt (s : HostSlice) (i : Nat) (h : i < s.len) :
    s.elems.get? i = s.arr.get? i := by
  simp only [HostSlice.elems, List.get?_eq_getElem?, List.getElem?_take, if_pos h]

/-- What one iteration does to a slice whose length fits its backing array. -/
theorem removeStep_spec {cat : String} {i : Nat} {s s1 : HostSlice}
    (h : removeStep cat i s = some s1) (hinv : s.len ≤ s.arr.length) :
    (s1 = s ∧ ∃ host, s.arr.get? i = some host ∧ host.Typ = cat) ∨
    (∃ host, s.arr.get? i = some host ∧ host.Typ ≠ cat ∧ s.elems.get? i = some host ∧
      s1.elems = s.elems.eraseIdx i ∧ s1.len = s.len - 1 ∧ s1.arr.length = s.arr.length) := by
  unfold removeStep at h
  split at h
  · simp at h
  · rename_i host hg
    split at h
    · rename_i hne
      obtain ⟨h1, h2, h3, h4⟩ := removeAt_spec h hinv
      refine Or.inr ⟨host, hg, hne, ?_, h4, h2, h3⟩
      rw [get?_elems_of_lt s i h1, hg]
    · rename_i heq
      simp only [Option.some.injEq] at h
      exact Or.inl ⟨h.symm, host, hg, by simpa using heq⟩

theorem removeStep_inv {cat : String} {i : Nat} {s s1 : HostSlice}
    (h : removeStep cat i s = some s1) (hinv : s.len ≤ s.arr.length) :
    s1.len ≤ s1.arr.length ∧ s1.elems.Sublist s.elems ∧
      s1.elems.filter (fun x => decide (x.Typ = cat)) =
        s.elems.filter (fun x => decide (x.Typ = cat)) := by
  rcases removeStep_spec h hinv with ⟨rfl, _⟩ | ⟨host, _, hne, hg, he, hl, ha⟩
  · exact ⟨hinv, List.Sublist.refl _, rfl⟩
  · refine ⟨by omega, ?_, ?_⟩
    · rw [he]; exact List.eraseIdx_sublist _ _
    · rw [he]
      exact filter_eraseIdx_of_not _ _ i host hg (by simpa using hne)

theorem removeLoop_inv (cat : String) (n : Nat) : ∀ (i : Nat) (s s1 : HostSlice),
    removeLoop cat n i s = some s1 → s.len ≤ s.arr.length →
    s1.len ≤ s1.arr.length ∧ s1.elems.Sublist s.elems ∧
      s1.elems.filter (fun x => decide (x.Typ = cat)) =
        s.elems.filter (fun x => decide (x.Typ = cat)) := by
  induction n with
  | zero =>
    intro i s s1 h hinv
    simp only [removeLoop, Option.some.injEq] at h
    subst h
    exact ⟨hinv, List.Sublist.refl _, rfl⟩
  | succ n ih =>
    intro i s s1 h hinv
    simp only [removeLoop] at h
    split at h
    · simp at h
    · rename_i s2 hs
      obtain ⟨a1, a2, a3⟩ := removeStep_inv hs hinv
      obtain ⟨b1, b2, b3⟩ := ih (i + 1) s2 s1 h a1
      exact ⟨b1, b2.trans a2, b3.trans a3⟩

theorem removeLoop_add (cat : String) (a b : Nat) : ∀ (i : Nat) (s : HostSlice),
    removeLoop cat (a + b) i s = (removeLoop cat a i s).bind (removeLoop cat b (i + a)) := by
  induction a with
  | zero => intro i s; simp [removeLoop]
  | succ a ih =>
    intro i s
    rw [show a + 1 + b = (a + b) + 1 by omega]
    simp only [removeLoop]
    cases hs : removeStep cat i s with
    | none => simp
    | some s2 =>
      simp only []
      rw [ih (i + 1) s2, show i + 1 + a = i + (a + 1) by omega]

/-- Iterations that only examine matching cells leave the slice as it is. -/
theorem removeLoop_stable (cat : String) (n : Nat) : ∀ (i : Nat) (s : HostSlice),
    (∀ j, i ≤ j → j < i + n → ∃ host, s.arr.get? j = some host ∧ host.Typ = cat) →
    removeLoop cat n i s = some s := by
  induction n with
  | zero => intro i s _; rfl
  | succ n ih =>
    intro i s hall
    obtain ⟨host, hg, ht⟩ := hall i (Nat.le_refl _) (by omega)
    have hstep : removeStep cat i s = some s := by
      unfold removeStep
      rw [hg]
      simp [ht]
    simp only [removeLoop, hstep]
    exact ih (i + 1) s (fun j h1 h2 => hall j (by omega) (by omega))

theorem exists_single_of_filter_length_le_one (p : ServerAddress → Bool)
    (l : List ServerAddress) (h : (l.filter (fun x => !p x)).length ≤ 1) :
    (∀ x ∈ l, p x = true) ∨
    ∃ pre b post, l = pre ++ b :: post ∧ (∀ x ∈ pre, p x = true) ∧ p b = false ∧
      (∀ x ∈ post, p x = true) := by
  induction l with
  | nil => left; simp
  | cons a t ih =>
    cases hpa : p a with
    | true =>
      have ht : (t.filter (fun x => !p x)).length ≤ 1 := by
        simpa [List.filter_cons, hpa] using h
      rcases ih ht with hall | ⟨pre, b, post, e, h1, h2, h3⟩
      · left
        intro x hx
        rcases List.mem_cons.mp hx with rfl | hx
        · exact hpa
        · exact hall x hx
      · right
        refine ⟨a :: pre, b, post, by rw [e]; rfl, ?_, h2, h3⟩
        intro x hx
        rcases List.mem_cons.mp hx with rfl | hx
        · exact hpa
        · exact h1 x hx
    | false =>
      right
      have ht : (t.filter (fun x => !p x)).length = 0 := by
        have : (t.filter (fun x => !p x)).length + 1 ≤ 1 := by
          simpa [List.filter_cons, hpa] using h
        omega
      refine ⟨[], a, t, rfl, by simp, hpa, ?_⟩
      intro x hx
      have hnil := List.length_eq_zero.mp ht
      have := (List.filter_eq_nil_iff.mp hnil) x hx
      simpa using this

/-- The run of `removeAddresses` on a list with exactly one non-matching host. -/
theorem removeLoop_single (cat : String) (pre post : List ServerAddress) (b : ServerAddress)
    (hpre : ∀ x ∈ pre, x.Typ = cat) (hb : b.Typ ≠ cat) (hpost : ∀ x ∈ post, x.Typ = cat) :
    removeAddresses (pre ++ b :: post) cat = some (pre ++ post) := by
  have hlen : (pre ++ b :: post).length = pre.length + (1 + post.length) := by
    simp only [List.length_append, List.length_cons]; omega
  unfold removeAddresses
  rw [hlen, removeLoop_add]
  have h0 : removeLoop cat pre.length 0
      { arr := pre ++ b :: post, len := pre.length + (1 + post.length) } =
      some { arr := pre ++ b :: post, len := pre.length + (1 + post.length) } := by
    apply removeLoop_stable
    intro j _ hj
    have hj2 : j < pre.length := by omega
    refine ⟨pre.get ⟨j, hj2⟩, ?_, hpre _ (List.get_mem _ _ _)⟩
    simp only [List.get?_eq_getElem?, List.get_eq_getElem]
    rw [List.getElem?_append_left hj2, List.getElem?_eq_getElem hj2]
  rw [h0, Option.some_bind, removeLoop_add]
  have hk : (pre ++ b :: post).get? pre.length = some b := by
    rw [List.get?_eq_getElem?, List.getElem?_append_right (Nat.le_refl _)]
    simp
  have h1 : removeLoop cat 1 (0 + pre.length)
      { arr := pre ++ b :: post, len := pre.length + (1 + post.length) } =
      some { arr := pre ++ (post ++ List.drop post.length (b :: post)),
             len := pre.length + post.length } := by
    simp only [removeLoop, Nat.zero_add, removeStep, hk, hb, ne_eq, not_false_eq_true,
      if_true, removeAt]
    have hc : pre.length + 1 ≤ pre.length + (1 + post.length) ∧
        pre.length ≤ (pre ++ b :: post).length := by
      constructor
      · omega
      · simp
    rw [if_pos hc]
    have e1 : pre.length + (1 + post.length) - (pre.length + 1) = post.length := by omega
    have e2 : pre.length + (1 + post.length) - 1 = pre.length + post.length := by omega
    simp only [e1, e2, List.take_left, List.drop_append, List.take_length]
    simp
  rw [h1, Option.some_bind]
  have h2 : removeLoop cat post.length (0 + pre.length + 1)
      { arr := pre ++ (post ++ List.drop post.length (b :: post)),
        len := pre.length + post.length } =
      some { arr := pre ++ (post ++ List.drop post.length (b :: post)),
             len := pre.length + post.length } := by
    apply removeLoop_stable
    intro j hj1 hj2
    have hsub : ∀ x ∈ post ++ List.drop post.length (b :: post), x.Typ = cat := by
      intro x hx
      rcases List.mem_append.mp hx with hx | hx
      · exact hpost x hx
      · cases hpo : post with
        | nil => rw [hpo] at hj2; simp at hj2; omega
        | cons c t =>
          rw [hpo] at hx
          simp only [List.length_cons, List.drop_succ_cons] at hx
          exact hpost x (by rw [hpo]; exact List.mem_of_mem_drop hx)
    have hl : (post ++ List.drop post.length (b :: post)).length = post.length + 1 := by
      simp
    have hj3 : j - pre.length < (post ++ List.drop post.length (b :: post)).length := by
      rw [hl]; omega
    refine ⟨(post ++ List.drop post.length (b :: post)).get ⟨j - pre.length, hj3⟩, ?_,
      hsub _ (List.get_mem _ _ _)⟩
    simp only [List.get?_eq_getElem?, List.get_eq_getElem]
    rw [List.getElem?_append_right (by omega), List.getElem?_eq_getElem hj3]
  rw [h2]
  simp only [Option.map_some', HostSlice.elems]
  rw [← List.append_assoc, List.take_append_eq_append_take]
  simp

/-! ## removeAddresses: the claims -/

/-- C1 (evaluation at the failing inputs): `removeAddresses` does not return exactly the
hosts of the requested type when two hosts of another type are present.  With two
non-matching hosts in front, the second one stays in the result; with two non-matching
hosts at the end, the call faults with a slice-bounds panic. -/
theorem removeAddresses_two_mismatches :
    removeAddresses
        [mkHost "10.0.0.1" "node", mkHost "10.0.0.2" "node", mkHost "10.0.0.3" "mongodb"]
        "mongodb" =
      some [mkHost "10.0.0.2" "node", mkHost "10.0.0.3" "mongodb"] ∧
    removeAddresses
        [mkHost "10.0.0.1" "mongodb", mkHost "10.0.0.2" "node", mkHost "10.0.0.3" "node"]
        "mongodb" = none ∧
    removeAddresses
        [mkHost "10.0.0.1" "node", mkHost "10.0.0.2" "mongodb", mkHost "10.0.0.3" "node"]
        "mongodb" = none := by
  decide

/-- C9: whenever `removeAddresses` returns (no slice-bounds fault), the hosts of the
requested type, in their original order, form a sublist of the result, and the result is
a sublist of the input; and in every iteration of the run, the slice is either left as it
is (the examined host matches) or loses exactly the cell `i` that was examined, which
holds a non-matching host. -/
theorem removeAddresses_no_matching_host_lost (hosts : List ServerAddress) (cat : String)
    (r : List ServerAddress) (h : removeAddresses hosts cat = some r) :
    (hosts.filter (fun x => decide (x.Typ = cat))).Sublist r ∧ r.Sublist hosts ∧
    ∀ (i : Nat) (s s1 : HostSlice),
      removeLoop cat i 0 { arr := hosts, len := hosts.length } = some s →
      removeStep cat i s = some s1 →
      (s1 = s ∧ ∃ host, s.arr.get? i = some host ∧ host.Typ = cat) ∨
      (∃ host, s.arr.get? i = some host ∧ host.Typ ≠ cat ∧ s.elems.get? i = some host ∧
        s1.elems = s.elems.eraseIdx i) := by
  have hinit : ({ arr := hosts, len := hosts.length } : HostSlice).elems = hosts := by
    simp [HostSlice.elems]
  refine ⟨?_, ?_, ?_⟩
  · unfold removeAddresses at h
    cases hl : removeLoop cat hosts.length 0 { arr := hosts, len := hosts.length } with
    | none => rw [hl] at h; simp at h
    | some s1 =>
      rw [hl] at h
      simp only [Option.map_some', Option.some.injEq] at h
      obtain ⟨_, _, hf⟩ := removeLoop_inv cat _ _ _ _ hl (Nat.le_refl _)
      rw [hinit] at hf
      rw [← h, ← hf]
      exact List.filter_sublist _
  · unfold removeAddresses at h
    cases hl : removeLoop cat hosts.length 0 { arr := hosts, len := hosts.length } with
    | none => rw [hl] at h; simp at h
    | some s1 =>
      rw [hl] at h
      simp only [Option.map_some', Option.some.injEq] at h
      obtain ⟨_, hs, _⟩ := removeLoop_inv cat _ _ _ _ hl (Nat.le_refl _)
      rw [hinit] at hs
      rw [← h]
      exact hs
  · intro i s s1 hpre hstep
    obtain ⟨hinv, _, _⟩ := removeLoop_inv cat _ _ _ _ hpre (Nat.le_refl _)
    rcases removeStep_spec hstep hinv with hA | ⟨host, h1, h2, h3, h4, _⟩
    · exact Or.inl hA
    · exact Or.inr ⟨host, h1, h2, h3, h4⟩

/-- Witness for C9 on a list with one non-matching host in the middle. -/
theorem removeAddresses_no_matching_host_lost_witness :
    removeAddresses [mkHost "1" "a", mkHost "2" "b", mkHost "3" "a"] "a" =
      some [mkHost "1" "a", mkHost "3" "a"] ∧
    (([mkHost "1" "a", mkHost "2" "b", mkHost "3" "a"].filter
        (fun x => decide (x.Typ = "a"))).Sublist [mkHost "1" "a", mkHost "3" "a"] ∧
      [mkHost "1" "a", mkHost "3" "a"].Sublist
        [mkHost "1" "a", mkHost "2" "b", mkHost "3" "a"] ∧
      ∀ (i : Nat) (s s1 : HostSlice),
        removeLoop "a" i 0 { arr := [mkHost "1" "a", mkHost "2" "b", mkHost "3" "a"],
                             len := [mkHost "1" "a", mkHost "2" "b", mkHost "3" "a"].length }
          = some s →
        removeStep "a" i s = some s1 →
        (s1 = s ∧ ∃ host, s.arr.get? i = some host ∧ host.Typ = "a") ∨
        (∃ host, s.arr.get? i = some host ∧ host.Typ ≠ "a" ∧ s.elems.get? i = some host ∧
          s1.elems = s.elems.eraseIdx i)) :=
  ⟨by decide,
    removeAddresses_no_matching_host_lost
      [mkHost "1" "a", mkHost "2" "b", mkHost "3" "a"] "a"
      [mkHost "1" "a", mkHost "3" "a"] (by decide)⟩

/-- C10: on every host list (the empty list included) with at most one host whose type
differs from the category, `removeAddresses` returns without a fault exactly the matching
hosts in their original order; when every host matches, that is the input itself. -/
theorem removeAddresses_at_most_one_mismatch (hosts : List ServerAddress) (cat : String)
    (h : (hosts.filter (fun x => decide (x.Typ ≠ cat))).length ≤ 1) :
    removeAddresses hosts cat = some (hosts.filter (fun x => decide (x.Typ = cat))) ∧
    ((∀ x ∈ hosts, x.Typ = cat) → removeAddresses hosts cat = some hosts) := by
  have hmain : removeAddresses hosts cat =
      some (hosts.filter (fun x => decide (x.Typ = cat))) := by
    have h2 : (hosts.filter (fun x => !(decide (x.Typ = cat)))).length ≤ 1 := by
      simpa using h
    rcases exists_single_of_filter_length_le_one (fun x => decide (x.Typ = cat)) hosts h2 with
      hall | ⟨pre, b, post, e, hpre, hb, hpost⟩
    · have hf : hosts.filter (fun x => decide (x.Typ = cat)) = hosts :=
        List.filter_eq_self.mpr hall
      rw [hf]
      unfold removeAddresses
      rw [removeLoop_stable]
      · simp [HostSlice.elems]
      · intro j _ hj
        have hj2 : j < hosts.length := by omega
        refine ⟨hosts.get ⟨j, hj2⟩, ?_, ?_⟩
        · simp only [List.get?_eq_getElem?, List.get_eq_getElem]
          exact List.getElem?_eq_getElem hj2
        · simpa using hall _ (List.get_mem hosts j hj2)
    · subst e
      have hpre2 : ∀ x ∈ pre, x.Typ = cat := fun x hx => by simpa using hpre x hx
      have hpost2 : ∀ x ∈ post, x.Typ = cat := fun x hx => by simpa using hpost x hx
      have hb2 : b.Typ ≠ cat := by simpa using hb
      rw [removeLoop_single cat pre post b hpre2 hb2 hpost2]
      simp only [List.filter_append, List.filter_cons, hb]
      rw [List.filter_eq_self.mpr hpre, List.filter_eq_self.mpr hpost]
      simp
  refine ⟨hmain, ?_⟩
  intro hall
  rw [hmain]
  congr 1
  exact List.filter_eq_self.mpr (fun x hx => by simpa using hall x hx)

/-- Witness for C10 on a list whose only non-matching host comes first. -/
theorem removeAddresses_at_most_one_mismatch_witness :
    ([mkHost "1" "b", mkHost "2" "a", mkHost "3" "a"].filter
        (fun x => decide (x.Typ ≠ "a"))).length ≤ 1 ∧
    (removeAddresses [mkHost "1" "b", mkHost "2" "a", mkHost "3" "a"] "a" =
        some ([mkHost "1" "b", mkHost "2" "a", mkHost "3" "a"].filter
          (fun x => decide (x.Typ = "a"))) ∧
      ((∀ x ∈ [mkHost "1" "b", mkHost "2" "a", mkHost "3" "a"], x.Typ = "a") →
        removeAddresses [mkHost "1" "b", mkHost "2" "a", mkHost "3" "a"] "a" =
          some [mkHost "1" "b", mkHost "2" "a", mkHost "3" "a"])) :=
  ⟨by decide,
    removeAddresses_at_most_one_mismatch
      [mkHost "1" "b", mkHost "2" "a", mkHost "3" "a"] "a" (by decide)⟩

/-! ## lemmas on the transition system -/

theorem workerStep_cycleEnd {closed fatal : Bool} {w w1 : WorkerState}
    (h : workerStep closed (.cycleEnd fatal) w = some w1) :
    w.pc = .fetching ∧ w1.pc = (if fatal then .killed else .idle) := by
  obtain ⟨pc, t⟩ := w
  cases pc <;> simp [workerStep] at h
  subst h
  exact ⟨rfl, rfl⟩

/-! ## lemmas on spawning -/

theorem spawnHosts_eq (ep : ScrapeEndpoint) (hosts : List ServerAddress) : ∀ st : Spawned,
    spawnHosts ep hosts st =
      { adds := st.adds + hosts.length, workers := st.workers ++ hosts.map (workerFor ep) } := by
  induction hosts with
  | nil => intro st; simp [spawnHosts]
  | cons host rest ih =>
    intro st
    simp only [spawnHosts, ih, List.length_cons, List.map_cons, List.append_assoc,
      List.singleton_append, Spawned.mk.injEq, and_true]
    omega

theorem spawnInstances_eq (ep : ScrapeEndpoint) (sis : List ServiceInstance) :
    ∀ st : Spawned, spawnInstances ep sis st =
      { adds := st.adds + (sis.flatMap (fun si => si.Hosts.map (workerFor ep))).length,
        workers := st.workers ++ sis.flatMap (fun si => si.Hosts.map (workerFor ep)) } := by
  induction sis with
  | nil => intro st; simp [spawnInstances]
  | cons si rest ih =>
    intro st
    simp only [spawnInstances, ih, spawnHosts_eq, List.flatMap_cons, List.length_append,
      List.length_map, List.append_assoc, Spawned.mk.injEq, and_true]
    omega

theorem spawnEndpoints_eq
    (find : String → Except String (List (Except String ServiceInstance)))
    (eps : List ScrapeEndpoint) : ∀ (st st1 : Spawned),
    spawnEndpoints find eps st = .ok st1 →
    ∃ loads : List (List ServiceInstance),
      List.Forall₂ (fun ep sis => LoadServiceInstances find ep.Typ = .ok sis) eps loads ∧
      st1.workers = st.workers ++
        (eps.zip loads).flatMap
          (fun p => p.2.flatMap (fun si => si.Hosts.map (workerFor p.1))) ∧
      st1.adds = st.adds +
        ((eps.zip loads).flatMap
          (fun p => p.2.flatMap (fun si => si.Hosts.map (workerFor p.1)))).length := by
  induction eps with
  | nil =>
    intro st st1 h
    simp only [spawnEndpoints, Except.ok.injEq] at h
    subst h
    exact ⟨[], List.Forall₂.nil, by simp, by simp⟩
  | cons ep rest ih =>
    intro st st1 h
    simp only [spawnEndpoints] at h
    split at h
    · simp at h
    · rename_i sis hl
      obtain ⟨loads, hf, hw, ha⟩ := ih _ _ h
      refine ⟨sis :: loads, List.Forall₂.cons hl hf, ?_, ?_⟩
      · rw [hw, spawnInstances_eq]
        simp [List.flatMap_cons, List.append_assoc]
      · rw [ha, spawnInstances_eq]
        simp only [List.zip_cons_cons, List.flatMap_cons, List.length_append]
        omega

theorem spawnEndpoints_find_error
    (find : String → Except String (List (Except String ServiceInstance)))
    (eps : List ScrapeEndpoint) (ep : ScrapeEndpoint) (hmem : ep ∈ eps) (e : String)
    (he : find ep.Typ = .error e) : ∀ st : Spawned,
    ∃ a, spawnEndpoints find eps st = .error a := by
  induction eps with
  | nil => simp at hmem
  | cons ep1 rest ih =>
    intro st
    simp only [spawnEndpoints]
    cases hl : LoadServiceInstances find ep1.Typ with
    | error a => exact ⟨a, rfl⟩
    | ok sis =>
      rcases List.mem_cons.mp hmem with rfl | hin
      · simp [LoadServiceInstances, he] at hl
      · exact ih hin _

theorem workerStep_cases {closed : Bool} {ev : WorkerEvent} {w w1 : WorkerState}
    (h : workerStep closed ev w = some w1) :
    (w1.pc = .cancelled → closed = true) ∧
    ((ev = .done ∧ w.pc = .starting ∧ w1.pc = .idle) ∨
      (ev ≠ .done ∧ w.pc ≠ .starting ∧ w1.pc ≠ .starting)) := by
  obtain ⟨pc, t⟩ := w
  cases ev <;> cases pc <;> cases t <;> cases closed <;> simp [workerStep] at h <;>
    subst h <;> simp
  all_goals (split <;> simp)

theorem countP_set_add (p : WorkerState → Bool) (l : List WorkerState) (i : Nat)
    (w w1 : WorkerState) (h : l.get? i = some w) :
    (l.set i w1).countP p + (if p w then 1 else 0) =
      l.countP p + (if p w1 then 1 else 0) := by
  induction l generalizing i with
  | nil => simp at h
  | cons a t ih =>
    cases i with
    | zero =>
      simp only [List.get?_cons_zero, Option.some.injEq] at h
      subst h
      simp only [List.set_cons_zero, List.countP_cons]
      omega
    | succ j =>
      simp only [List.get?_cons_succ] at h
      have := ih j h
      simp only [List.set_cons_succ, List.countP_cons]
      omega

theorem sysStep_inv {s s1 : SysState} {ev : Event} (hinv : SysInv s)
    (h : sysStep s ev = some s1) : SysInv s1 := by
  obtain ⟨hc, hw, hg⟩ := hinv
  unfold sysStep at h
  split at h
  · simp at h
  · cases ev with
    | spawn =>
      simp only [] at h
      split at h
      · simp only [Option.some.injEq] at h
        subst h
        refine ⟨hc, ?_, ?_⟩
        · intro w hm
          rcases List.mem_append.mp hm with hm | hm
          · exact hw w hm
          · simp only [List.mem_singleton] at hm
            subst hm
            simp
        · simp [startingCount, List.countP_append] at hg ⊢
          omega
      · simp at h
    | endSpawn =>
      simp only [] at h
      split at h
      · simp only [Option.some.injEq] at h
        subst h
        exact ⟨hc, hw, hg⟩
      · simp at h
    | interrupt =>
      simp only [] at h
      split at h
      · simp only [Option.some.injEq] at h
        subst h
        exact ⟨hc, hw, hg⟩
      · simp at h
    | waitReturn =>
      simp only [] at h
      split at h
      · simp only [Option.some.injEq] at h
        subst h
        exact ⟨hc, hw, hg⟩
      · simp at h
    | written failed =>
      simp only [] at h
      split at h
      · simp only [Option.some.injEq] at h
        subst h
        exact ⟨hc, hw, hg⟩
      · simp at h
    | ticker i =>
      simp only [] at h
      split at h
      · simp at h
      · rename_i w hget
        split at h
        · simp at h
        · rename_i hne
          simp only [Option.some.injEq] at h
          subst h
          refine ⟨hc, ?_, ?_⟩
          · intro x hm
            rcases List.mem_or_eq_of_mem_set hm with hm | rfl
            · exact hw x hm
            · exact hw w (List.get?_mem hget)
          · have := countP_set_add (fun w => decide (w.pc = .starting)) s.workers i w
              { w with tickReady := true } hget
            simp only [startingCount] at hg ⊢
            simp only [hne, decide_False, Bool.false_eq_true, if_false, Nat.add_zero] at this
            omega
    | worker i wev =>
      simp only [] at h
      split at h
      · simp at h
      · rename_i w hget
        split at h
        · simp at h
        · rename_i w1 hstep
          simp only [Option.some.injEq] at h
          subst h
          obtain ⟨hcan, hcase⟩ := workerStep_cases hstep
          refine ⟨hc, ?_, ?_⟩
          · intro x hm
            rcases List.mem_or_eq_of_mem_set hm with hm | rfl
            · exact hw x hm
            · intro hx
              have := hcan hx
              rw [hc] at this
              cases this
          · have := countP_set_add (fun w => decide (w.pc = .starting)) s.workers i w w1 hget
            simp only [startingCount] at hg ⊢
            rcases hcase with ⟨h1, h2, h3⟩ | ⟨h1, h2, h3⟩
            · simp [h2, h3] at this
              simp only [h1, if_true]
              omega
            · simp [h2, h3] at this
              simp only [h1, if_false]
              omega

theorem sysRun_inv (evs : List Event) : ∀ (s s1 : SysState), SysInv s →
    sysRun evs s = some s1 → SysInv s1 := by
  induction evs with
  | nil =>
    intro s s1 hinv h
    simp only [sysRun, Option.some.injEq] at h
    subst h
    exact hinv
  | cons ev evs ih =>
    intro s s1 hinv h
    simp only [sysRun] at h
    split at h
    · simp at h
    · rename_i s2 hs
      exact ih s2 s1 (sysStep_inv hinv hs) h

/-- In every state reachable from the start, with any number of discovered hosts,
`closed` has not been closed, no worker has been cancelled, and the WaitGroup counter
counts the workers that have not yet reached their loop. -/
theorem reachable_inv (n : Nat) (evs : List Event) (s : SysState)
    (h : sysRun evs (SysState.init n) = some s) : SysInv s :=
  sysRun_inv evs _ _ ⟨rfl, by simp [SysState.init], rfl⟩ h

/-- The call `wg.Wait()` can always return: from a state in which `Run` waits and the
process is alive, letting every worker that has not yet done so call `wg.Done()` brings
the counter to zero, and `Run` returns `ExitCodeOK`. -/
theorem wait_can_return (k : Nat) : ∀ s : SysState, startingCount s = k → SysInv s →
    s.run = .waiting → s.exit = none →
    ∃ evs s1, sysRun evs s = some s1 ∧ s1.run = .returned ∧ s1.exit = some ExitCodeOK := by
  induction k with
  | zero =>
    intro s hk hinv hrun hexit
    have hwg : s.wg = 0 := by rw [hinv.2.2, hk]
    refine ⟨[.waitReturn], { s with run := .returned, exit := some ExitCodeOK }, ?_, rfl, rfl⟩
    simp [sysRun, sysStep, hexit, hrun, hwg]
  | succ k ih =>
    intro s hk hinv hrun hexit
    have hpos : 0 < s.workers.countP (fun w => decide (w.pc = .starting)) := by
      simp only [startingCount] at hk
      omega
    obtain ⟨w, hmem, hw⟩ := List.countP_pos_iff.mp hpos
    obtain ⟨i, hget⟩ := List.mem_iff_get?.mp hmem
    have hpc : w.pc = .starting := by simpa using hw
    obtain ⟨pc, t⟩ := w
    simp only at hpc
    subst hpc
    have hstep : sysStep s (.worker i .done) =
        some { s with workers := s.workers.set i ⟨.idle, t⟩, wg := s.wg - 1 } := by
      have hget2 : s.workers[i]? = some ⟨.starting, t⟩ := by
        rw [← List.get?_eq_getElem?]; exact hget
      simp [sysStep, hexit, hget2, workerStep]
    have hinv2 := sysStep_inv hinv hstep
    have hk2 : startingCount { s with workers := s.workers.set i ⟨.idle, t⟩, wg := s.wg - 1 }
        = k := by
      have h1 := hinv2.2.2
      have h2 := hinv.2.2
      simp only at h1
      omega
    obtain ⟨evs, s1, hr, h1, h2⟩ := ih _ hk2 hinv2 hrun hexit
    exact ⟨.worker i .done :: evs, s1, by simp only [sysRun, hstep, hr], h1, h2⟩

/-! ## Forwarding: the claims -/

/-- C2 (evaluation at the failing input): the request the forwarder sends to the sink is
the fixed sample tweet, whatever the cycle has aggregated.  For every marshalling function
and any two cycle results, scenario A's `cpu_usage` result among them, both cycles send
the same request, whose body is `tweet1` and not the JSON text of the result. -/
theorem pollCycle_sink_request_fixed (marshal : List Family → String)
    (doIndex : IndexRequest → Except String IndexResponse) (ip : String)
    (r1 r2 : List Family) :
    pollCycle (fun r => .ok (marshal r)) (fun _ => .ok ()) doIndex ip r1 =
      .done { stdout := marshal r1, forwarderArgs := (ip, marshal r1),
              sinkRequest := { Index := "test", Typ := "test", BodyJson := .tweet tweet1 },
              write := WriteMetric doIndex } ∧
    pollCycle (fun r => .ok (marshal r)) (fun _ => .ok ()) doIndex ip r2 =
      .done { stdout := marshal r2, forwarderArgs := (ip, marshal r2),
              sinkRequest := { Index := "test", Typ := "test", BodyJson := .tweet tweet1 },
              write := WriteMetric doIndex } ∧
    pollCycle (fun r => .ok (marshal r)) (fun _ => .ok ()) doIndex ip cpuUsage =
      .done { stdout := marshal cpuUsage, forwarderArgs := (ip, marshal cpuUsage),
              sinkRequest := { Index := "test", Typ := "test", BodyJson := .tweet tweet1 },
              write := WriteMetric doIndex } ∧
    Body.tweet tweet1 ≠ Body.json (marshal cpuUsage) ∧
    tweet1 = { User := "olivere", Message := "Take Five", Retweets := 0, Image := "",
               Created := 0, Tags := [], Location := "" } := by
  refine ⟨rfl, rfl, rfl, ?_, rfl⟩
  intro h
  cases h

/-- C4 (counterexample): it is not the case that `WriteMetric` completes normally for
every outcome of the index call, nor that a marshalling failure lets the cycle go on: a
failing index call makes it panic, a failing `json.Marshal` ends in `log.Fatalln`. -/
theorem WriteMetric_failure_escalates :
    WriteMetric (fun _ => .error "connection refused") = .panicked "connection refused" ∧
    pollCycle (fun _ => .error "unsupported value") (fun _ => .ok ())
      (fun _ => .ok { Id := "1", Index := "test", Typ := "test" }) "10.0.0.1" cpuUsage =
        .fatal ∧
    sysStep { run := .awaitSignal, pending := 0, wg := 0, closed := false,
              workers := [⟨.fetching, false⟩], inflight := 0, exit := none }
        (.worker 0 (.cycleEnd true)) =
      some { run := .awaitSignal, pending := 0, wg := 0, closed := false,
             workers := [⟨.killed, false⟩], inflight := 0, exit := some 1 } := by
  refine ⟨rfl, rfl, by decide⟩

/-- C4 (amended): `WriteMetric` completes normally when the index call succeeds and
executes `panic(err)` when it fails; a failure of `json.Marshal` or of the write to
standard output ends the cycle in `log.Fatalln`.  In the system, the panic of a forwarding
goroutine ends the process with status 2 and a fatal cycle ends it with status 1, after
which no step is possible. -/
theorem WriteMetric_outcomes (doIndex : IndexRequest → Except String IndexResponse)
    (marshal : List Family → Except String String)
    (stdoutWrite : String → Except String Unit) (ip : String) (result : List Family)
    (s s1 t t1 : SysState) (i : Nat)
    (hs : sysStep s (.written true) = some s1)
    (ht : sysStep t (.worker i (.cycleEnd true)) = some t1) :
    (∀ put1, doIndex WriteMetricRequest = .ok put1 →
      WriteMetric doIndex = .completed ("Indexed tweet " ++ put1.Id ++ " to index " ++
        put1.Index ++ ", type " ++ put1.Typ ++ "\n")) ∧
    (∀ err, doIndex WriteMetricRequest = .error err → WriteMetric doIndex = .panicked err) ∧
    ((∃ err, marshal result = .error err) →
      pollCycle marshal stdoutWrite doIndex ip result = .fatal) ∧
    (∀ jsonText, marshal result = .ok jsonText → (∃ err, stdoutWrite jsonText = .error err) →
      pollCycle marshal stdoutWrite doIndex ip result = .fatal) ∧
    (s1.exit = some 2 ∧ ∀ ev, sysStep s1 ev = none) ∧
    (t1.exit = some 1 ∧ ∀ ev, sysStep t1 ev = none) := by
  have hdead : ∀ (u : SysState) (c : Int), u.exit = some c → ∀ ev, sysStep u ev = none := by
    intro u c hu ev
    have : u.exit.isSome = true := by rw [hu]; rfl
    simp [sysStep, this]
  refine ⟨?_, ?_, ?_, ?_, ?_, ?_⟩
  · intro put1 h
    simp only [WriteMetric, h]
  · intro err h
    simp only [WriteMetric, h]
  · rintro ⟨err, h⟩
    simp only [pollCycle, h]
  · rintro jsonText h ⟨err, h2⟩
    simp only [pollCycle, h, h2]
  · have hexit : s1.exit = some 2 := by
      simp only [sysStep] at hs
      split at hs
      · simp at hs
      · split at hs
        · simp only [Option.some.injEq] at hs
          rw [← hs]
          rfl
        · simp at hs
    exact ⟨hexit, hdead s1 2 hexit⟩
  · have hexit : t1.exit = some 1 := by
      simp only [sysStep] at ht
      split at ht
      · simp at ht
      · split at ht
        · simp at ht
        · rename_i w hw
          split at ht
          · simp at ht
          · rename_i w1 hw1
            simp only [Option.some.injEq] at ht
            have hk : w1.pc = .killed := (workerStep_cycleEnd hw1).2
            rw [← ht]
            simp [hk]
    exact ⟨hexit, hdead t1 1 hexit⟩

/-- Witness for the amended C4: a failing index call and a failing marshal, the panic of
a forwarding goroutine in a system with one idle worker, and a fatal cycle of a worker. -/
theorem WriteMetric_outcomes_witness :
    WriteMetric (fun _ => .error "connection refused") = .panicked "connection refused" ∧
    pollCycle (fun _ => .error "unsupported value") (fun _ => .ok ())
      (fun _ => .error "connection refused") "10.0.0.1" cpuUsage = .fatal ∧
    ({ run := .awaitSignal, pending := 0, wg := 0, closed := false,
       workers := [⟨.idle, false⟩], inflight := 0, exit := some 2 } : SysState).exit =
      some 2 ∧
    ({ run := .awaitSignal, pending := 0, wg := 0, closed := false,
       workers := [⟨.killed, false⟩], inflight := 0, exit := some 1 } : SysState).exit =
      some 1 :=
  have h := WriteMetric_outcomes (fun _ => .error "connection refused")
    (fun _ => .error "unsupported value") (fun _ => .ok ()) "10.0.0.1" cpuUsage
    { run := .awaitSignal, pending := 0, wg := 0, closed := false,
      workers := [⟨.idle, false⟩], inflight := 1, exit := none }
    { run := .awaitSignal, pending := 0, wg := 0, closed := false,
      workers := [⟨.idle, false⟩], inflight := 0, exit := some 2 }
    { run := .awaitSignal, pending := 0, wg := 0, closed := false,
      workers := [⟨.fetching, false⟩], inflight := 0, exit := none }
    { run := .awaitSignal, pending := 0, wg := 0, closed := false,
      workers := [⟨.killed, false⟩], inflight := 0, exit := some 1 } 0
    (by decide) (by decide)
  ⟨h.2.1 "connection refused" rfl, h.2.2.1 ⟨"unsupported value", rfl⟩, h.2.2.2.2.1.1,
    h.2.2.2.2.2.1⟩

/-! ## The transition system: the claims -/

/-- C3 (evaluation at the failing input): with one discovered host, the steps spawn, end
of spawning, the worker's `wg.Done()`, interrupt, return of `wg.Wait()` are all enabled in
this order, and they lead to a state in which `Run` has returned with `ExitCodeOK` while
`closed` was never closed and the worker is still at the `select` of its loop. -/
theorem Run_returns_while_worker_in_loop :
    sysRun [.spawn, .endSpawn, .worker 0 .done, .interrupt, .waitReturn] (SysState.init 1) =
      some { run := .returned, pending := 0, wg := 0, closed := false,
             workers := [⟨.idle, false⟩], inflight := 0, exit := some 0 } ∧
    sysRun [.spawn, .endSpawn, .worker 0 .done, .ticker 0, .worker 0 .tick, .interrupt,
        .waitReturn] (SysState.init 1) =
      some { run := .returned, pending := 0, wg := 0, closed := false,
             workers := [⟨.fetching, false⟩], inflight := 0, exit := some 0 } := by
  decide

/-- C8 (counterexample): from Idle with `closed` raised and a tick ready, the step into
the ticker branch is enabled: exiting the loop is not the only possible next step. -/
theorem workerStep_tick_enabled_when_closed :
    ¬ (∀ (ev : WorkerEvent) (w : WorkerState),
        workerStep true ev ⟨.idle, true⟩ = some w → w.pc = .cancelled) := by
  intro h
  have := h .tick ⟨.fetching, false⟩ rfl
  cases this

/-- C8 (amended): from Idle with `closed` raised and no tick ready, the only enabled step
is the one that leaves the loop; when a tick is ready as well, exactly two steps are
enabled, leaving the loop and entering the ticker branch.  From Cancelled no step is
enabled, so no run from there takes any step, in particular no other fetch. -/
theorem workerStep_closed_at_idle :
    (∀ ev, workerStep true ev ⟨.idle, false⟩ =
      if ev = .cancel then some ⟨.cancelled, false⟩ else none) ∧
    (∀ ev, workerStep true ev ⟨.idle, true⟩ =
      if ev = .cancel then some ⟨.cancelled, true⟩
      else if ev = .tick then some ⟨.fetching, false⟩ else none) ∧
    (∀ closed ev t, workerStep closed ev ⟨.cancelled, t⟩ = none) ∧
    (∀ closed ev evs t, workerRun closed (ev :: evs) ⟨.cancelled, t⟩ = none) := by
  have h3 : ∀ closed ev t, workerStep closed ev ⟨.cancelled, t⟩ = none := by
    intro closed ev t
    cases ev <;> rfl
  refine ⟨?_, ?_, h3, ?_⟩
  · intro ev
    cases ev <;> simp [workerStep]
  · intro ev
    cases ev <;> simp [workerStep]
  · intro closed ev evs t
    simp only [workerRun, h3]

/-! ## Spawning: the claims -/

/-- C7 (evaluation at the failing input): for two endpoints configured with the
intervals 30 and 60, each with one discovered host, the two workers started both hand
`time.Second * 5` to `time.NewTicker`; the configured `Interval` is not used.  The
duration handed to the ticker is the same positive constant for every worker. -/
theorem tickerDuration_ignores_Interval :
    ∃ st, spawnEndpoints
        (fun scrapeType => .ok [.ok (mkInstance "si-1" [mkHost "10.0.0.1" scrapeType])])
        [{ Typ := "mongodb", Port := 9216, Interval := 30, IncludeNode := false },
         { Typ := "redis", Port := 9121, Interval := 60, IncludeNode := false }]
        { adds := 0, workers := [] } = .ok st ∧
      st.workers = [{ name := "mongodb-10.0.0.1", ip := "10.0.0.1", port := 9216 },
                    { name := "redis-10.0.0.1", ip := "10.0.0.1", port := 9121 }] ∧
      st.workers.map tickerDuration = [5000000000, 5000000000] ∧
      (∀ w : Worker, tickerDuration w = Second * 5 ∧ 0 < tickerDuration w) :=
  ⟨_, rfl, by decide, by decide, fun _ => ⟨rfl, show (0 : Int) < Second * 5 by decide⟩⟩

/-- C5 (counterexample): two service instances that share the host address 10.0.0.1
make `Run` start two workers with the same id `mongodb-10.0.0.1`: two workers, one
distinct id. -/
theorem spawnEndpoints_duplicate_ids :
    ∃ st, spawnEndpoints
        (fun _ => .ok [.ok (mkInstance "si-1" [mkHost "10.0.0.1" "mongodb"]),
                       .ok (mkInstance "si-2" [mkHost "10.0.0.1" "mongodb"])])
        [{ Typ := "mongodb", Port := 9216, Interval := 30, IncludeNode := false }]
        { adds := 0, workers := [] } = .ok st ∧
      st.workers.map Worker.name = ["mongodb-10.0.0.1", "mongodb-10.0.0.1"] ∧
      ¬ (st.workers.map Worker.name).Nodup ∧
      (st.workers.map Worker.name).dedup.length = 1 ∧ st.workers.length = 2 :=
  ⟨_, rfl, by decide, by decide, by decide, by decide⟩

/-- C5 (amended): when the spawning loops of `Run` complete, one worker has been started
(and one `wg.Add(1)` made) for every host of every service instance loaded for every
scrape endpoint, in that order, named `Type + "-" + IP`; ids are not deduplicated.  So
the number of workers is the number N of discovered host entries, and when the N ids are
pairwise distinct the N workers carry N distinct ids. -/
theorem spawnEndpoints_one_worker_per_entry
    (find : String → Except String (List (Except String ServiceInstance)))
    (eps : List ScrapeEndpoint) (st : Spawned)
    (h : spawnEndpoints find eps { adds := 0, workers := [] } = .ok st) :
    ∃ loads : List (List ServiceInstance),
      List.Forall₂ (fun ep sis => LoadServiceInstances find ep.Typ = .ok sis) eps loads ∧
      st.workers = (eps.zip loads).flatMap (fun p => p.2.flatMap (fun si => si.Hosts.map
        (fun host => { name := p.1.Typ ++ "-" ++ host.IP, ip := host.IP, port := p.1.Port }))) ∧
      st.workers.length =
        ((eps.zip loads).map (fun p => (p.2.map (fun si => si.Hosts.length)).sum)).sum ∧
      st.adds = st.workers.length ∧
      ((st.workers.map Worker.name).Nodup →
        (st.workers.map Worker.name).dedup.length = st.workers.length) := by
  obtain ⟨loads, hf, hw, ha⟩ := spawnEndpoints_eq find eps _ _ h
  simp only [List.nil_append, Nat.zero_add] at hw ha
  refine ⟨loads, hf, hw, ?_, ?_, ?_⟩
  · rw [hw, List.length_flatMap]
    congr 1
    apply List.map_congr_left
    intro p _
    simp [List.length_flatMap, Function.comp_def]
  · rw [ha, hw]
  · intro hnd
    rw [List.Nodup.dedup hnd, List.length_map]

/-- Witness for the amended C5: one endpoint, two service instances with one host each. -/
theorem spawnEndpoints_one_worker_per_entry_witness :
    ∃ loads : List (List ServiceInstance),
      List.Forall₂ (fun (ep : ScrapeEndpoint) (sis : List ServiceInstance) =>
          LoadServiceInstances
            (fun _ => .ok [.ok (mkInstance "si-1" [mkHost "10.0.0.1" "mongodb"]),
                           .ok (mkInstance "si-2" [mkHost "10.0.0.2" "mongodb"])])
            ep.Typ = .ok sis)
        [{ Typ := "mongodb", Port := 9216, Interval := 30, IncludeNode := false }] loads ∧
      ([{ name := "mongodb-10.0.0.1", ip := "10.0.0.1", port := 9216 },
        { name := "mongodb-10.0.0.2", ip := "10.0.0.2", port := 9216 }] : List Worker) =
        (([{ Typ := "mongodb", Port := 9216, Interval := 30, IncludeNode := false }] :
            List ScrapeEndpoint).zip loads).flatMap
          (fun p => p.2.flatMap (fun si => si.Hosts.map
            (fun host => { name := p.1.Typ ++ "-" ++ host.IP, ip := host.IP,
                           port := p.1.Port }))) :=
  have h := spawnEndpoints_one_worker_per_entry
    (fun _ => .ok [.ok (mkInstance "si-1" [mkHost "10.0.0.1" "mongodb"]),
                   .ok (mkInstance "si-2" [mkHost "10.0.0.2" "mongodb"])])
    [{ Typ := "mongodb", Port := 9216, Interval := 30, IncludeNode := false }]
    { adds := 2, workers := [{ name := "mongodb-10.0.0.1", ip := "10.0.0.1", port := 9216 },
                             { name := "mongodb-10.0.0.2", ip := "10.0.0.2", port := 9216 }] }
    rfl
  h.imp (fun _ hl => ⟨hl.1, hl.2.1⟩)

/-! ## Exit codes: the claim -/

/-- C6: `ExitCodeOK` is 0 and `ExitCodeError` is not 0.  With `Run` as a function of the
outcomes of its steps: when flag parsing fails `Run` returns `ExitCodeError`; when the
configuration cannot be loaded it returns `ExitCodeError`; when the discovery query fails
for a configured endpoint the process ends with a non-zero status; and when all of start-up
succeeds and the interrupt arrives, `Run` returns `ExitCodeOK`, so the exit code is 0. -/
theorem Run_exit_codes (env : RunEnv) (arg0 : String) (rest : List String) (flags : Flags)
    (config : Config) (hflags : flags.genGodoc = false ∧ flags.version = false) :
    ExitCodeOK = 0 ∧ ExitCodeError ≠ 0 ∧
    ((∃ e, env.parse rest = .error e) →
      Run env (arg0 :: rest) = .returned ExitCodeError) ∧
    (env.parse rest = .ok flags → (∃ e, env.loadConfig flags.cfgPath = .error e) →
      Run env (arg0 :: rest) = .returned ExitCodeError) ∧
    (env.parse rest = .ok flags → env.loadConfig flags.cfgPath = .ok config →
      (∃ ep ∈ config.ScrapeEndpoints, ∃ e, env.find ep.Typ = .error e) →
      ∃ c, (Run env (arg0 :: rest)).exitCode = some c ∧ c ≠ 0) ∧
    (env.parse rest = .ok flags → env.loadConfig flags.cfgPath = .ok config →
      (∃ u, env.newElasticsearchClient config = .ok u) →
      (∃ u, env.newMongoDBClient config = .ok u) →
      (∃ st, spawnEndpoints env.find config.ScrapeEndpoints { adds := 0, workers := [] } =
        .ok st) →
      env.interrupt = true →
      Run env (arg0 :: rest) = .returned ExitCodeOK ∧
        (Run env (arg0 :: rest)).exitCode = some 0) := by
  obtain ⟨hg, hv⟩ := hflags
  refine ⟨rfl, by decide, ?_, ?_, ?_, ?_⟩
  · rintro ⟨e, he⟩
    simp only [Run, he]
  · rintro hp ⟨e, he⟩
    simp [Run, hp, hg, hv, he]
  · rintro hp hc ⟨ep, hmem, e, he⟩
    obtain ⟨a, ha⟩ := spawnEndpoints_find_error env.find _ ep hmem e he
      { adds := 0, workers := [] }
    simp only [Run, hp, hg, hv, hc, Bool.false_eq_true, if_false]
    cases env.newElasticsearchClient config with
    | error _ => exact ⟨2, rfl, by decide⟩
    | ok _ =>
      cases env.newMongoDBClient config with
      | error _ => exact ⟨2, rfl, by decide⟩
      | ok _ =>
        simp only [ha]
        cases a with
        | fatal => exact ⟨1, rfl, by decide⟩
        | goPanic => exact ⟨2, rfl, by decide⟩
  · rintro hp hc ⟨u1, h1⟩ ⟨u2, h2⟩ ⟨st, hst⟩ hi
    have hr : Run env (arg0 :: rest) = .returned ExitCodeOK := by
      simp [Run, hp, hg, hv, hc, h1, h2, hst, hi]
    exact ⟨hr, by rw [hr]; rfl⟩

/-- Witness for C6: a clean shutdown, a failing flag parse, a configuration that cannot
be loaded and a failing discovery query. -/
theorem Run_exit_codes_witness :
    Run (okEnv ⟨"scraper.toml", false, false⟩) ["scraper"] = .returned 0 ∧
    Run { okEnv ⟨"scraper.toml", false, false⟩ with
          parse := fun _ => .error "flag provided but not defined" }
        ["scraper", "-x"] = .returned 2 ∧
    Run { okEnv ⟨"scraper.toml", false, false⟩ with
          loadConfig := fun _ => .error "no such file" }
        ["scraper"] = .returned 2 ∧
    (∃ c, (Run { okEnv ⟨"scraper.toml", false, false⟩ with
                 find := fun _ => .error "server selection timeout" }
              ["scraper"]).exitCode = some c ∧ c ≠ 0) :=
  ⟨((Run_exit_codes (okEnv ⟨"scraper.toml", false, false⟩) "scraper" []
        ⟨"scraper.toml", false, false⟩
        { ScrapeEndpoints := [{ Typ := "mongodb", Port := 9216, Interval := 30,
                                IncludeNode := false }] }
        ⟨rfl, rfl⟩).2.2.2.2.2 rfl rfl ⟨(), rfl⟩ ⟨(), rfl⟩ ⟨_, rfl⟩ rfl).1,
   (Run_exit_codes { okEnv ⟨"scraper.toml", false, false⟩ with
          parse := fun _ => .error "flag provided but not defined" } "scraper" ["-x"]
        ⟨"scraper.toml", false, false⟩ { ScrapeEndpoints := [] } ⟨rfl, rfl⟩).2.2.1
      ⟨_, rfl⟩,
   (Run_exit_codes { okEnv ⟨"scraper.toml", false, false⟩ with
          loadConfig := fun _ => .error "no such file" } "scraper" []
        ⟨"scraper.toml", false, false⟩ { ScrapeEndpoints := [] } ⟨rfl, rfl⟩).2.2.2.1
      rfl ⟨_, rfl⟩,
   (Run_exit_codes { okEnv ⟨"scraper.toml", false, false⟩ with
          find := fun _ => .error "server selection timeout" } "scraper" []
        ⟨"scraper.toml", false, false⟩
        { ScrapeEndpoints := [{ Typ := "mongodb", Port := 9216, Interval := 30,
                                IncludeNode := false }] }
        ⟨rfl, rfl⟩).2.2.2.2.1 rfl rfl
      ⟨_, List.mem_singleton.mpr rfl, "server selection timeout", rfl⟩⟩

end Scraper
